import Mathlib

/-!
Shallow embedding of the dj-migrator binary decoding layer.

Bytes are modelled as `Nat` (values `< 256` for real buffers); a Node
`Buffer` is a `List Nat`.  JavaScript exceptions are modelled with
`Except`.  Sources embedded here:

* `lib/byte-stream.ts` — the `ByteStream` class (`read` / `lookahead`);
* `src/serato-parser/track-parser.ts` — `convertSeratoMarkers` and the
  `ColorEntry` / `CueEntry` / `BPMLockEntry` payload interpreters;
* the crate parser (`parseTag` / `parseCrate`, keyed by the
  `TAG_TYPE_TO_CLASS` table of `lib/serato-parser/crate-parser.js`);
* `lib/serato-parser/index.js` — `buildTrackMap`.
-/

namespace DJM

/-! ## ByteStream (`lib/byte-stream.ts`) -/

/-- `class ByteStream { buffer; index }` — cursor over an immutable buffer. -/
structure ByteStream where
  buffer : List Nat
  index : Nat
deriving Repr, DecidableEq

namespace ByteStream

/-- `read(size)`: if `buffer.length >= index + size`, return the `size`
bytes starting at `index` (the hex round trip in the source copies the
slice verbatim) and advance the cursor; otherwise return `null` and
leave the stream untouched.  Modelled state-passing: the second
component is the stream after the call. -/
def read (s : ByteStream) (size : Nat) : Option (List Nat) × ByteStream :=
  if s.index + size ≤ s.buffer.length then
    (some ((s.buffer.drop s.index).take size), { s with index := s.index + size })
  else
    (none, s)

/-- `lookahead(size)`: same bounds check and slice as `read` but the
cursor is never advanced. -/
def lookahead (s : ByteStream) (size : Nat) : Option (List Nat) × ByteStream :=
  (if s.index + size ≤ s.buffer.length then
    some ((s.buffer.drop s.index).take size)
  else
    none, s)

end ByteStream

/-! ## Numeric helpers -/

/-- `Buffer.readUInt32BE` on a 4-byte buffer: big-endian base-256 value. -/
def be32 (l : List Nat) : Nat :=
  l.foldl (fun acc b => acc * 256 + b) 0

/-- Big-endian 4-byte encoding of a 32-bit value (used by the
re-encoder of the round-trip claim). -/
def be32enc (n : Nat) : List Nat :=
  [n / 16777216 % 256, n / 65536 % 256, n / 256 % 256, n % 256]

/-- One lowercase hex digit, as produced by `Buffer.toString('hex')`. -/
def hexDigitChar (d : Nat) : Char :=
  if d < 10 then Char.ofNat (48 + d) else Char.ofNat (87 + d)

/-- `Buffer.toString('hex')`: two lowercase hex digits per byte. -/
def hexOfBytes (l : List Nat) : String :=
  String.mk (l.foldr (fun b acc => hexDigitChar (b / 16) :: hexDigitChar (b % 16) :: acc) [])

theorem be32_be32enc (n : Nat) (h : n < 4294967296) : be32 (be32enc n) = n := by
  simp only [be32, be32enc, List.foldl]
  omega

@[simp] theorem length_be32enc (n : Nat) : (be32enc n).length = 4 := rfl

/-! ## Marker decoding (`src/serato-parser/track-parser.ts`)

`convertSeratoMarkers` walks the decoded frame buffer with a
`ByteStream`; here the stream is represented by its remaining suffix
(`read n` = `take n` / `drop n`, exactly the `ByteStream.read` model
above at cursor 0). -/

/-- Entry names are JS strings of latin1 char codes; `'COLOR'`. -/
def COLOR_NAME : List Nat := [67, 79, 76, 79, 82]

/-- `'CUE'`. -/
def CUE_NAME : List Nat := [67, 85, 69]

/-- `'BPMLOCK'`. -/
def BPMLOCK_NAME : List Nat := [66, 80, 77, 76, 79, 67, 75]

/-- The three entry classes pushed by `convertSeratoMarkers`; the source
has no constructor for unrecognized entry names. -/
inductive MarkerEntry where
  | color (color : String)
  | cue (index : Nat) (position : Nat) (color : String)
  | bpmlock (enabled : Bool)
deriving Repr, DecidableEq

/-- Failures of `convertSeratoMarkers`: the `'Frame header is invalid'`
assert, the `'Entry length must be greater than 0'` assert, the
`'Corrupted entry: Payload failed to parse'` assert, and the
`RangeError` thrown by `readUInt32BE` past the end of a short CUE
payload. -/
inductive MarkerErr where
  | invalidFrameHeader
  | entryLengthNotPositive
  | corruptedEntry
  | outOfRange
deriving Repr, DecidableEq

/-- `getEntryType`: read single bytes, accumulating latin1 chars, until a
`0x00` byte or end of stream; returns the name and the remaining bytes. -/
def getEntryType : List Nat → List Nat × List Nat
  | [] => ([], [])
  | b :: rest =>
    if b = 0 then ([], rest)
    else
      let (s, r) := getEntryType rest
      (b :: s, r)

/-- `getEntryPayload`: read a 4-byte big-endian length (`undefined` if
fewer than 4 bytes remain, failing the positivity assert), assert it is
`> 0`, then read that many payload bytes (the corrupted-entry assert
fires if they are unavailable). -/
def getEntryPayload (bytes : List Nat) : Except MarkerErr (List Nat × List Nat) :=
  if bytes.length < 4 then .error .entryLengthNotPositive
  else if be32 (bytes.take 4) = 0 then .error .entryLengthNotPositive
  else if (bytes.drop 4).length < be32 (bytes.take 4) then .error .corruptedEntry
  else .ok ((bytes.drop 4).take (be32 (bytes.take 4)), (bytes.drop 4).drop (be32 (bytes.take 4)))

/-- `new ColorEntry(data)`: `data.toString('hex', 1)` — hex of every byte
after the first. -/
def colorEntryOfData (data : List Nat) : MarkerEntry :=
  .color (hexOfBytes (data.drop 1))

/-- `new CueEntry(data)`: `readUIntBE(1,1)`, `readUInt32BE(2)` and
`toString('hex', 7, 10)`; the integer reads throw a `RangeError` when
the payload is shorter than 6 bytes. -/
def cueEntryOfData (data : List Nat) : Except MarkerErr MarkerEntry :=
  if data.length < 6 then .error .outOfRange
  else .ok (.cue (data.getD 1 0) (be32 ((data.drop 2).take 4))
              (hexOfBytes ((data.drop 7).take 3)))

/-- `new BPMLockEntry(data)`: `!!data.readUIntBE(0, 1)`. -/
def bpmlockEntryOfData (data : List Nat) : MarkerEntry :=
  .bpmlock (data.getD 0 0 ≠ 0)

/-- The `for (const EntryClass of [ColorEntry, CueEntry, BPMLockEntry])`
dispatch: an entry is appended only when the name matches one of the
three class names; any other name contributes nothing. -/
def entryOf (name payload : List Nat) : Except MarkerErr (Option MarkerEntry) :=
  if name = COLOR_NAME then .ok (some (colorEntryOfData payload))
  else if name = CUE_NAME then (cueEntryOfData payload).map some
  else if name = BPMLOCK_NAME then .ok (some (bpmlockEntryOfData payload))
  else .ok none

/-- One iteration of the `while (true)` entry loop of
`convertSeratoMarkers`, parameterized by the continuation for the rest
of the loop. -/
def parseEntriesStep (rec : List Nat → Except MarkerErr (List MarkerEntry))
    (bytes : List Nat) : Except MarkerErr (List MarkerEntry) :=
  match getEntryType bytes with
  | (name, rest) =>
    if name = [] then .ok []
    else
      match getEntryPayload rest with
      | .error e => .error e
      | .ok (payload, rest2) =>
        match entryOf name payload with
        | .error e => .error e
        | .ok oe =>
          match rec rest2 with
          | .error e => .error e
          | .ok es => .ok (match oe with | some e => e :: es | none => es)

/-- The entry loop, fuelled (one unit per entry; each entry consumes at
least one byte, so `bytes.length + 1` fuel always suffices). -/
def parseEntriesF : Nat → List Nat → Except MarkerErr (List MarkerEntry)
  | 0, _ => .error .corruptedEntry
  | fuel + 1, bytes => parseEntriesStep (parseEntriesF fuel) bytes

/-- The entry loop with always-sufficient fuel. -/
def parseEntries (bytes : List Nat) : Except MarkerErr (List MarkerEntry) :=
  parseEntriesF (bytes.length + 1) bytes

/-- `convertSeratoMarkers(buffer)`: read two bytes and assert they equal
`0x01 0x01` (`'Frame header is invalid'`), then run the entry loop on
the rest.  (`buffer.take 2 = [1,1]` also forces `buffer.length ≥ 2`,
matching the null check on the failed read.) -/
def convertSeratoMarkers (buffer : List Nat) : Except MarkerErr (List MarkerEntry) :=
  if buffer.take 2 = [1, 1] then parseEntries (buffer.drop 2)
  else .error .invalidFrameHeader

/-! ## Crate decoding (`lib/serato-parser/crate-parser.js`)

`parseTag` reads a 4-byte type, a 4-byte big-endian payload length and
the payload, then dispatches through `TAG_TYPE_TO_CLASS` keyed by
`tagType.toString('ascii')` — Node's `'ascii'` decoding clears the high
bit of every byte. -/

/-- `'vrsn'` (`MetadataTag.ID`). -/
def VRSN : List Nat := [0x76, 0x72, 0x73, 0x6e]

/-- `'tvcn'` (`ColumnNameTag.ID`). -/
def TVCN : List Nat := [0x74, 0x76, 0x63, 0x6e]

/-- `'ovct'` (`ColumnTag.ID`). -/
def OVCT : List Nat := [0x6f, 0x76, 0x63, 0x74]

/-- `'osrt'` (`FirstColumnTag.ID`). -/
def OSRT : List Nat := [0x6f, 0x73, 0x72, 0x74]

/-- `'ptrk'` (`TrackNameTag.ID`). -/
def PTRK : List Nat := [0x70, 0x74, 0x72, 0x6b]

/-- `'otrk'` (`TrackTag.ID`). -/
def OTRK : List Nat := [0x6f, 0x74, 0x72, 0x6b]

/-- `'orvc'` (`UnknownPayload.ID`). -/
def ORVC : List Nat := [0x6f, 0x72, 0x76, 0x63]

/-- The keys of `TAG_TYPE_TO_CLASS`. -/
def knownKeys : List (List Nat) := [ORVC, OSRT, OTRK, OVCT, PTRK, TVCN, VRSN]

/-- `Buffer.toString('ascii')` on the 4 tag-type bytes: each byte's high
bit is cleared and the result is used as the lookup key. -/
def asciiKey (l : List Nat) : List Nat := l.map (· % 128)

/-- JavaScript exceptions thrown while parsing a crate tag:
`TypeError` (a method call or property access on `null`, e.g.
`read(4).readUInt32BE()` when the length bytes are missing, or a tag
constructor receiving a `null` payload) and `RangeError`
(`Buffer.swap16()` on an odd-length payload).  `outOfFuel` is an
artifact of the fuelled recursion and is unreachable with the fuel
used by `parseTagBytes` / `parseTags`. -/
inductive JsErr where
  | typeError
  | rangeError
  | outOfFuel
deriving Repr, DecidableEq

/-- The decoded tag objects.  Container tags store the (possibly `null`)
results of the nested `parseTag` calls exactly as the constructors do;
`UnknownTag` stores the ascii-decoded type key and the payload, which
is `null` (`none`) when the declared length overruns the buffer. -/
inductive Tag where
  | metadata (text : List Nat)
  | columnName (name : List Nat)
  | column (nameTag : Option Tag) (tag2 : Option Tag)
  | firstColumn (nameTag : Option Tag) (tag2 : Option Tag)
  | trackName (name : List Nat)
  | track (nameTag : Option Tag)
  | unknownPayload (payload : Option Tag)
  | unknown (tagType : List Nat) (payload : Option (List Nat))
deriving Repr

/-- `payload.swap16().toString('utf16le')`: the in-place 16-bit byte swap
followed by little-endian UTF-16 decoding reads big-endian code units;
pairing an even-length byte list big-endian. -/
def utf16beUnits : List Nat → List Nat
  | b0 :: b1 :: rest => (b0 * 256 + b1) :: utf16beUnits rest
  | _ => []

/-- The text decoding of `MetadataTag` / `ColumnNameTag` /
`TrackNameTag` constructors: `swap16` throws a `RangeError` when the
payload length is odd, otherwise the payload decodes as big-endian
UTF-16 code units. -/
def decodeText (payload : List Nat) : Except JsErr (List Nat) :=
  if payload.length % 2 = 1 then .error .rangeError
  else .ok (utf16beUnits payload)

/-- The `TAG_TYPE_TO_CLASS` dispatch of `parseTag`: `key` is the
ascii-decoded tag type, `optPayload` the (possibly `null`) payload and
`bs3` the stream after the payload read; constructors mirror the
source, with `rec` standing for the nested `parseTag` calls of the
container constructors.  A `null` payload makes every known
constructor throw a `TypeError`, while `UnknownTag` stores it as-is. -/
def dispatchTag (rec : ByteStream → Except JsErr (Option Tag × ByteStream))
    (key : List Nat) (optPayload : Option (List Nat)) (bs3 : ByteStream) :
    Except JsErr (Option Tag × ByteStream) :=
  if key = VRSN then
    match optPayload with
    | none => .error .typeError
    | some payload =>
      match decodeText payload with
      | .error e => .error e
      | .ok units => .ok (some (.metadata units), bs3)
  else if key = TVCN then
    match optPayload with
    | none => .error .typeError
    | some payload =>
      match decodeText payload with
      | .error e => .error e
      | .ok units => .ok (some (.columnName units), bs3)
  else if key = PTRK then
    match optPayload with
    | none => .error .typeError
    | some payload =>
      match decodeText payload with
      | .error e => .error e
      | .ok units => .ok (some (.trackName units), bs3)
  else if key = OVCT then
    match optPayload with
    | none => .error .typeError
    | some payload =>
      match rec ⟨payload, 0⟩ with
      | .error e => .error e
      | .ok (t1, s1) =>
        match rec s1 with
        | .error e => .error e
        | .ok (t2, _) => .ok (some (.column t1 t2), bs3)
  else if key = OSRT then
    match optPayload with
    | none => .error .typeError
    | some payload =>
      match rec ⟨payload, 0⟩ with
      | .error e => .error e
      | .ok (t1, s1) =>
        match rec s1 with
        | .error e => .error e
        | .ok (t2, _) => .ok (some (.firstColumn t1 t2), bs3)
  else if key = OTRK then
    match optPayload with
    | none => .error .typeError
    | some payload =>
      match rec ⟨payload, 0⟩ with
      | .error e => .error e
      | .ok (t1, _) => .ok (some (.track t1), bs3)
  else if key = ORVC then
    match optPayload with
    | none => .error .typeError
    | some payload =>
      match rec ⟨payload, 0⟩ with
      | .error e => .error e
      | .ok (t1, _) => .ok (some (.unknownPayload t1), bs3)
  else
    .ok (some (.unknown key optPayload), bs3)

/-- One `parseTag(byteStream)` call: read the 4 type bytes (`null` ⇒
"not a valid tag", the clean end of the tag loop), the 4 length bytes
(`null` ⇒ `readUInt32BE` throws a `TypeError`), the payload, then
dispatch. -/
def parseTagStep (rec : ByteStream → Except JsErr (Option Tag × ByteStream))
    (bs : ByteStream) : Except JsErr (Option Tag × ByteStream) :=
  match bs.read 4 with
  | (none, _) => .ok (none, bs)
  | (some tagType, bs1) =>
    match bs1.read 4 with
    | (none, _) => .error .typeError
    | (some lenBytes, bs2) =>
      match bs2.read (be32 lenBytes) with
      | (optPayload, bs3) => dispatchTag rec (asciiKey tagType) optPayload bs3


/-- `parseTag(byteStream)`, fuelled (one unit per nesting level; each
level consumes at least 8 bytes of its buffer, so `buffer.length + 1`
always suffices).  The clean end-of-stream check runs before fuel is
consumed, matching the source's early `null` return. -/
def parseTagF : Nat → ByteStream → Except JsErr (Option Tag × ByteStream)
  | 0, bs =>
    (match bs.read 4 with
     | (none, _) => .ok (none, bs)
     | (some _, _) => .error .outOfFuel)
  | fuel + 1, bs => parseTagStep (parseTagF fuel) bs

/-- `parseTag` on a whole buffer (fresh `ByteStream`), with
always-sufficient fuel. -/
def parseTagBytes (buffer : List Nat) : Except JsErr (Option Tag × ByteStream) :=
  parseTagF (buffer.length + 1) ⟨buffer, 0⟩

/-- The `while (nextTag)` loop of `parseCrate`: collect the top-level
tags in file order until `parseTag` returns `null`. -/
def parseTagsF : Nat → ByteStream → Except JsErr (List Tag)
  | 0, _ => .error .outOfFuel
  | fuel + 1, bs =>
    match parseTagF fuel bs with
    | .error e => .error e
    | .ok (none, _) => .ok []
    | .ok (some t, bs1) =>
      match parseTagsF fuel bs1 with
      | .error e => .error e
      | .ok ts => .ok (t :: ts)

/-- All top-level tags of a crate buffer in file order. -/
def parseTags (buffer : List Nat) : Except JsErr (List Tag) :=
  parseTagsF (buffer.length + 1) ⟨buffer, 0⟩

/-- The record built by `parseCrate` (file reading and the `.crate`
extension assert are external to the buffer grammar). -/
structure Crate where
  columns : List Tag
  tracks : List Tag
  metadata : Option Tag
  unknown : List Tag
deriving Repr

/-- The `instanceof` bucketing of `parseCrate`'s loop body. -/
def crateStep (c : Crate) (t : Tag) : Crate :=
  match t with
  | .column _ _ => { c with columns := c.columns ++ [t] }
  | .track _ => { c with tracks := c.tracks ++ [t] }
  | .metadata _ => { c with metadata := some t }
  | _ => { c with unknown := c.unknown ++ [t] }

/-- Bucket a tag list as `parseCrate` does. -/
def crateOf (ts : List Tag) : Crate :=
  ts.foldl crateStep ⟨[], [], none, []⟩

/-- `parseCrate` on a crate file buffer. -/
def parseCrate (buffer : List Nat) : Except JsErr Crate :=
  (parseTags buffer).map crateOf

/-! ## Re-encoding (round-trip claim)

Modelled from the spec: the repository has no encoder, so the
re-encoder required by the round-trip property follows the spec's tag
grammar — "4-byte type, 4-byte big-endian length, payload", text
payloads re-encoded as byte-swapped UTF-16, container payloads as the
concatenation of their nested tags, unknown tags emitted verbatim. -/

/-- Inverse of `utf16beUnits`: big-endian UTF-16 code-unit encoding. -/
def encText (units : List Nat) : List Nat :=
  units.foldr (fun u acc => u / 256 :: u % 256 :: acc) []

mutual

/-- Re-encode one decoded tag under the spec's tag grammar. -/
def encodeTag : Tag → List Nat
  | .metadata u => VRSN ++ be32enc (encText u).length ++ encText u
  | .columnName u => TVCN ++ be32enc (encText u).length ++ encText u
  | .trackName u => PTRK ++ be32enc (encText u).length ++ encText u
  | .column t1 t2 =>
    OVCT ++ be32enc (encOpt t1 ++ encOpt t2).length ++ (encOpt t1 ++ encOpt t2)
  | .firstColumn t1 t2 =>
    OSRT ++ be32enc (encOpt t1 ++ encOpt t2).length ++ (encOpt t1 ++ encOpt t2)
  | .track t1 => OTRK ++ be32enc (encOpt t1).length ++ encOpt t1
  | .unknownPayload t1 => ORVC ++ be32enc (encOpt t1).length ++ encOpt t1
  | .unknown ty pl => ty ++ be32enc (pl.getD []).length ++ pl.getD []

/-- Encoding of a possibly-`null` nested tag: `null` contributes no
bytes. -/
def encOpt : Option Tag → List Nat
  | none => []
  | some t => encodeTag t

end

/-- Concatenated encoding of a tag sequence (a whole crate buffer). -/
def encTagList (ts : List Tag) : List Nat :=
  (ts.map encodeTag).foldr (· ++ ·) []

/-- Text payload constraints: code units fit in 16 bits and the payload
length fits in the 4-byte length field. -/
def textOK (u : List Nat) : Bool :=
  u.all (· < 65536) && decide (2 * u.length < 4294967296)

mutual

/-- Well-formed decoded tags: exactly those whose re-encoding parses
back to themselves.  Containers may not have a `null` first child
followed by a present second child (the nested parser fills children in
order); unknown tags carry a present payload and a 4-byte ASCII type
that is none of the known keys; all payload lengths fit in 32 bits. -/
def wfTag : Tag → Bool
  | .metadata u => textOK u
  | .columnName u => textOK u
  | .trackName u => textOK u
  | .column t1 t2 =>
    wfOpt t1 && wfOpt t2 && !(t1.isNone && t2.isSome)
      && decide ((encOpt t1 ++ encOpt t2).length < 4294967296)
  | .firstColumn t1 t2 =>
    wfOpt t1 && wfOpt t2 && !(t1.isNone && t2.isSome)
      && decide ((encOpt t1 ++ encOpt t2).length < 4294967296)
  | .track t1 => wfOpt t1 && decide ((encOpt t1).length < 4294967296)
  | .unknownPayload t1 => wfOpt t1 && decide ((encOpt t1).length < 4294967296)
  | .unknown ty pl =>
    match pl with
    | none => false
    | some l =>
      ty.length == 4 && ty.all (· < 128) && !(knownKeys.contains ty)
        && decide (l.length < 4294967296)

/-- Well-formedness of a possibly-`null` nested tag. -/
def wfOpt : Option Tag → Bool
  | none => true
  | some t => wfTag t

end

/-- A "valid crate byte buffer": the byte image of a well-formed tag
sequence under the spec's tag grammar. -/
def ValidCrateBuffer (b : List Nat) : Prop :=
  ∃ ts : List Tag, (∀ t ∈ ts, wfTag t = true) ∧ b = encTagList ts

/-! ## Library model building (`lib/serato-parser/index.js`)

`buildTrackMap` walks the playlists in order and, per track path not
already in the map, resolves the path, checks `fs.existsSync` and
`path.extname(...).toLowerCase() === '.mp3'`, and on success runs
`convertTrack` and inserts with key `Object.keys(trackMap).length + 1`.
Filesystem and metadata extraction are external collaborators, modelled
as oracles in `FsEnv`; the JS object (string keys, insertion-ordered
for these non-index keys) is an insertion-ordered association list; the
`log` field records one entry (the track path) per `convertTrack`
invocation. -/

/-- The supported-extension list of `track-parser.ts`
(`SUPPORTED_FILE_TYPES`). -/
def SUPPORTED_FILE_TYPES : List String := [".mp3", ".wav", ".flac"]

/-- `path.extname`: the extension of the basename, from its last `.`;
empty when there is no dot or the only dot leads the basename. -/
def extname (s : String) : String :=
  let b := (s.data.reverse.takeWhile (· ≠ '/')).reverse
  let rev := b.reverse
  let pre := rev.takeWhile (· ≠ '.')
  if pre.length = rev.length then ""
  else if b.length = pre.length + 1 then ""
  else String.mk ('.' :: pre.reverse)

/-- `String.prototype.toLowerCase` (ASCII as used on extensions). -/
def lowerStr (s : String) : String :=
  String.mk (s.data.map Char.toLower)

/-- A playlist as produced by `parseAsPlaylist`. -/
structure Playlist where
  name : String
  tracks : List String

/-- External collaborators of `buildTrackMap`: `path.resolve(rootDir, ·)`,
`fs.existsSync`, and the `convertTrack` pipeline (whose result type is
abstract here). -/
structure FsEnv (α : Type) where
  resolvePath : String → String
  fileExists : String → Bool
  convertTrack : String → α

/-- One value of the track map: `{ key, absolutePath, track }`. -/
structure TMEntry (α : Type) where
  key : Nat
  absolutePath : String
  track : α
deriving Repr, DecidableEq

/-- The map under construction plus the instrumentation log of
`convertTrack` invocations. -/
structure TMState (α : Type) where
  map : List (String × TMEntry α)
  log : List String
deriving Repr, DecidableEq

/-- The `doesFileExist && isMP3` acceptance check of `buildTrackMap`. -/
def acceptTrack (env : FsEnv α) (track : String) : Bool :=
  env.fileExists (env.resolvePath track)
    && (lowerStr (extname (env.resolvePath track)) == ".mp3")

/-- The body of `buildTrackMap`'s inner loop for one track path. -/
def addTrack (env : FsEnv α) (st : TMState α) (track : String) : TMState α :=
  if (st.map.lookup track).isSome then st
  else if acceptTrack env track then
    let absolutePath := env.resolvePath track
    { map := st.map ++ [(track, ⟨st.map.length + 1, absolutePath,
        env.convertTrack absolutePath⟩)],
      log := st.log ++ [track] }
  else st

/-- `buildTrackMap(rootDir, playlists)`: playlists in order, then track
paths in order. -/
def buildTrackMap (env : FsEnv α) (playlists : List Playlist) : TMState α :=
  playlists.foldl (fun st pl => pl.tracks.foldl (addTrack env) st) ⟨[], []⟩

/-! ## ByteStream lemmas -/

namespace ByteStream

theorem read_some (B : List Nat) (i n : Nat) (h : i + n ≤ B.length) :
    read ⟨B, i⟩ n = (some ((B.drop i).take n), ⟨B, i + n⟩) := by
  simp [read, h]

theorem read_none (B : List Nat) (i n : Nat) (h : B.length < i + n) :
    read ⟨B, i⟩ n = (none, ⟨B, i⟩) := by
  have : ¬ i + n ≤ B.length := by omega
  simp [read, this]

/-- Reading exactly the length of the middle segment starting right
after `pre` yields that segment. -/
theorem read_exact (pre mid post : List Nat) (n : Nat) (hn : mid.length = n) :
    read ⟨pre ++ (mid ++ post), pre.length⟩ n
      = (some mid, ⟨pre ++ (mid ++ post), pre.length + n⟩) := by
  subst hn
  rw [read_some]
  · congr 2
    rw [List.drop_left, List.take_left]
  · simp

/-- `read` past the end of the `pre ++ tail` buffer (at cursor
`pre.length` with `tail.length < n`) returns `null`. -/
theorem read_short (pre tail : List Nat) (n : Nat) (h : tail.length < n) :
    read ⟨pre ++ tail, pre.length⟩ n = (none, ⟨pre ++ tail, pre.length⟩) := by
  apply read_none
  simp
  omega

end ByteStream

/-! ## C5 — `ByteStream.read` contract -/

/-- C5: for every buffer, cursor and request size `n`, `read n` returns
the `n` bytes at the cursor and advances the cursor by exactly `n` when
`cursor + n ≤ buffer.length`; otherwise it returns `null` (no
exception, never fewer than `n` bytes) and the stream is unchanged. -/
theorem read_contract (s : ByteStream) (n : Nat) :
    (s.index + n ≤ s.buffer.length →
      s.read n = (some ((s.buffer.drop s.index).take n), ⟨s.buffer, s.index + n⟩)
        ∧ ((s.buffer.drop s.index).take n).length = n)
    ∧ (s.buffer.length < s.index + n → s.read n = (none, s)) := by
  constructor
  · intro h
    constructor
    · obtain ⟨B, i⟩ := s
      exact ByteStream.read_some B i n h
    · simp
      omega
  · intro h
    obtain ⟨B, i⟩ := s
    exact ByteStream.read_none B i n h

/-- Witness for C5 at a concrete stream: a successful read returns the
two requested bytes and advances the cursor; an oversized read returns
`null`. -/
theorem read_contract_witness :
    ByteStream.read ⟨[10, 20, 30], 0⟩ 2 = (some [10, 20], ⟨[10, 20, 30], 2⟩)
      ∧ ByteStream.read ⟨[10, 20, 30], 0⟩ 4 = (none, ⟨[10, 20, 30], 0⟩) :=
  ⟨((read_contract ⟨[10, 20, 30], 0⟩ 2).1 (by decide)).1,
    (read_contract ⟨[10, 20, 30], 0⟩ 4).2 (by decide)⟩

/-! ## C9 — frame conditions of `read` and `lookahead` -/

/-- C9: a failed `read` leaves the cursor unchanged (a later smaller
read starts from the same position), `lookahead` never changes the
stream, and neither operation modifies the underlying buffer. -/
theorem read_lookahead_frame (s : ByteStream) (n : Nat) :
    ((s.read n).1 = none → (s.read n).2 = s)
      ∧ (s.read n).2.buffer = s.buffer
      ∧ (s.lookahead n).2 = s := by
  refine ⟨fun h => ?_, ?_, rfl⟩
  · by_cases hc : s.index + n ≤ s.buffer.length
    · simp [ByteStream.read, hc] at h
    · simp [ByteStream.read, hc]
  · by_cases hc : s.index + n ≤ s.buffer.length <;> simp [ByteStream.read, hc]

/-- Witness for C9: the failed 3-byte read on a 1-byte buffer leaves
the stream (cursor and buffer) unchanged. -/
theorem read_lookahead_frame_witness :
    (ByteStream.read ⟨[5], 0⟩ 3).2 = ⟨[5], 0⟩ :=
  (read_lookahead_frame ⟨[5], 0⟩ 3).1 rfl

/-! ## C2 — invalid marker frame header -/

/-- C2: for every buffer whose first two bytes are not `0x01 0x01`
(including buffers shorter than two bytes, for which `take 2` cannot
equal `[1, 1]`), `convertSeratoMarkers` fails with the invalid-header
error before the entry loop runs, so no `MarkerEntry` of any kind is
produced. -/
theorem convertSeratoMarkers_bad_header (buffer : List Nat)
    (h : buffer.take 2 ≠ [1, 1]) :
    convertSeratoMarkers buffer = .error .invalidFrameHeader := by
  simp [convertSeratoMarkers, h]

/-- Witness for C2: a buffer starting `0x00 0x01` is rejected with the
invalid-header error. -/
theorem convertSeratoMarkers_bad_header_witness :
    convertSeratoMarkers [0, 1, 2, 3] = .error .invalidFrameHeader :=
  convertSeratoMarkers_bad_header [0, 1, 2, 3] (by decide)

/-! ## C3 — CUE payload field offsets -/

/-- C3: for every CUE payload of at least 10 bytes, the CUE interpreter
reads the index from byte 1 (unsigned 8-bit), the position from bytes
2–5 (unsigned 32-bit big-endian) and the color from the hex digits of
bytes 7–9. -/
theorem cueEntryOfData_offsets (data : List Nat) (h : 10 ≤ data.length) :
    cueEntryOfData data
      = .ok (.cue (data.getD 1 0) (be32 ((data.drop 2).take 4))
          (hexOfBytes ((data.drop 7).take 3))) := by
  have : ¬ data.length < 6 := by omega
  simp [cueEntryOfData, this]

/-- Witness for C3: the spec's 13-byte payload
`00 05 00 00 80 BF 00 CC 00 00 00 00 00` decodes to index 5, position
32959 ms and color `"cc0000"`. -/
theorem cueEntryOfData_offsets_witness :
    cueEntryOfData [0x00, 0x05, 0x00, 0x00, 0x80, 0xBF, 0x00, 0xCC, 0x00, 0x00, 0x00, 0x00, 0x00]
      = .ok (.cue 5 32959 "cc0000") := by
  rw [cueEntryOfData_offsets _ (by decide)]
  rfl

/-! ## Marker entry-loop lemmas -/

theorem getEntryType_le (bytes : List Nat) :
    (getEntryType bytes).2.length + (getEntryType bytes).1.length ≤ bytes.length := by
  induction bytes with
  | nil => simp [getEntryType]
  | cons b rest ih =>
    by_cases hb : b = 0
    · simp [getEntryType, hb]
    · simp only [getEntryType, if_neg hb]
      simp
      omega

theorem getEntryPayload_lt {r p r2 : List Nat}
    (h : getEntryPayload r = .ok (p, r2)) : r2.length < r.length := by
  unfold getEntryPayload at h
  split_ifs at h with h1 h2 h3
  simp only [Except.ok.injEq, Prod.mk.injEq] at h
  obtain ⟨-, h4⟩ := h
  subst h4
  simp
  omega

theorem getEntryType_no_nul (name rest : List Nat) (h0 : 0 ∉ name) :
    getEntryType (name ++ 0 :: rest) = (name, rest) := by
  induction name with
  | nil => simp [getEntryType]
  | cons b tail ih =>
    have hb : b ≠ 0 := fun hb => h0 (by simp [hb])
    have ht : 0 ∉ tail := fun ht => h0 (List.mem_cons_of_mem _ ht)
    simp [getEntryType, hb, ih ht]

theorem getEntryPayload_exact (payload rest : List Nat)
    (hp : payload ≠ []) (hlen : payload.length < 4294967296) :
    getEntryPayload (be32enc payload.length ++ (payload ++ rest)) = .ok (payload, rest) := by
  have hlen4 : ¬ (be32enc payload.length ++ (payload ++ rest)).length < 4 := by
    simp
  have htake : (be32enc payload.length ++ (payload ++ rest)).take 4 = be32enc payload.length := by
    rw [← length_be32enc payload.length, List.take_left]
  have hdrop : (be32enc payload.length ++ (payload ++ rest)).drop 4 = payload ++ rest := by
    rw [← length_be32enc payload.length, List.drop_left]
  have hpos : payload.length ≠ 0 := by
    simpa using fun h => hp (List.eq_nil_of_length_eq_zero h)
  simp only [getEntryPayload, if_neg hlen4, htake, hdrop, be32_be32enc _ hlen, if_neg hpos]
  have hshort : ¬ (payload ++ rest).length < payload.length := by
    simp
  rw [if_neg hshort, List.take_left, List.drop_left]

/-- Fuel irrelevance for the entry loop: any two fuels above the number
of remaining bytes give the same result. -/
theorem parseEntriesF_stable :
    ∀ f1 f2 bytes, bytes.length < f1 → bytes.length < f2 →
      parseEntriesF f1 bytes = parseEntriesF f2 bytes := by
  intro f1
  induction f1 with
  | zero => intro f2 bytes h1; omega
  | succ a ih =>
    intro f2 bytes h1 h2
    obtain ⟨b, rfl⟩ : ∃ b, f2 = b + 1 := ⟨f2 - 1, by omega⟩
    show parseEntriesStep (parseEntriesF a) bytes = parseEntriesStep (parseEntriesF b) bytes
    unfold parseEntriesStep
    rcases hET : getEntryType bytes with ⟨name, rest⟩
    by_cases hname : name = []
    · simp [hname]
    · have hrest : rest.length < bytes.length := by
        have := getEntryType_le bytes
        rw [hET] at this
        have hn : 0 < name.length := List.length_pos.mpr hname
        simp at this
        omega
      rcases hEP : getEntryPayload rest with e | ⟨p, rest2⟩
      · simp [hname, hEP]
      · have hrest2 : rest2.length < rest.length := getEntryPayload_lt hEP
        simp only [hEP, if_neg hname]
        rw [ih b rest2 (by omega) (by omega)]

/-! ## C8 — unrecognized marker entry names -/

/-- Counterexample for C8: the buffer holds two entries, first one named
`"X"` (unrecognized) and then a `COLOR` entry; decoding succeeds and
continues past the unknown entry, but the output holds only the single
`ColorEntry` — no `UnknownTag` (the output type of the source has no
such class), so the unknown entry is not represented in the result. -/
theorem unknown_entry_not_represented :
    convertSeratoMarkers
        ([1, 1] ++ [88, 0] ++ [0, 0, 0, 1] ++ [7]
          ++ [67, 79, 76, 79, 82, 0] ++ [0, 0, 0, 4] ++ [0, 0xCC, 0, 0])
      = .ok [.color "cc0000"] := rfl

/-- C8 as amended: an entry whose NUL-terminated name is not `COLOR`,
`CUE` or `BPMLOCK` is never fatal and parsing continues with the next
entry, but the unknown entry is silently dropped: the loop's result on
the buffer starting with the unknown entry equals the result on the
remaining entries alone (no `UnknownTag` is produced). -/
theorem unknown_entry_skipped (name payload rest : List Nat)
    (hname : name ≠ []) (h0 : 0 ∉ name)
    (hc : name ≠ COLOR_NAME) (hq : name ≠ CUE_NAME) (hb : name ≠ BPMLOCK_NAME)
    (hp : payload ≠ []) (hlen : payload.length < 4294967296) :
    parseEntries (name ++ 0 :: (be32enc payload.length ++ (payload ++ rest)))
      = parseEntries rest := by
  unfold parseEntries
  set bytes := name ++ 0 :: (be32enc payload.length ++ (payload ++ rest)) with hbytes
  show parseEntriesStep (parseEntriesF bytes.length) bytes = _
  unfold parseEntriesStep
  rw [getEntryType_no_nul name _ h0]
  simp only [if_neg hname,
    getEntryPayload_exact payload rest hp hlen]
  have hent : entryOf name payload = .ok none := by
    simp [entryOf, hc, hq, hb]
  rw [hent]
  have hlt : rest.length < bytes.length := by
    simp [hbytes]
    omega
  rw [parseEntriesF_stable bytes.length (rest.length + 1) rest hlt (by omega)]
  rcases parseEntriesF (rest.length + 1) rest with e | es <;> rfl

/-- Witness for the amended C8: a concrete unknown entry named `"ZZ"`
followed by a `BPMLOCK` entry decodes to the same single entry as the
`BPMLOCK` entry alone. -/
theorem unknown_entry_skipped_witness :
    parseEntries ([90, 90] ++ 0 :: (be32enc 1 ++ ([7]
        ++ ([66, 80, 77, 76, 79, 67, 75, 0] ++ [0, 0, 0, 1] ++ [1]))))
      = parseEntries ([66, 80, 77, 76, 79, 67, 75, 0] ++ [0, 0, 0, 1] ++ [1])
      ∧ parseEntries ([66, 80, 77, 76, 79, 67, 75, 0] ++ [0, 0, 0, 1] ++ [1])
        = .ok [.bpmlock true] :=
  ⟨unknown_entry_skipped [90, 90] [7] _ (by decide) (by decide) (by decide)
      (by decide) (by decide) (by decide) (by decide), rfl⟩

/-! ## Crate `parseTag` lemmas -/

theorem read_at0 (mid post : List Nat) (n : Nat) (hn : mid.length = n) :
    ByteStream.read ⟨mid ++ post, 0⟩ n = (some mid, ⟨mid ++ post, n⟩) := by
  subst hn
  have h : (0 : Nat) + mid.length ≤ (mid ++ post).length := by simp
  rw [ByteStream.read_some _ _ _ h]
  simp [List.take_left]

theorem read_at (pre mid post : List Nat) (i n j : Nat)
    (hi : pre.length = i) (hn : mid.length = n) (hj : i + n = j) :
    ByteStream.read ⟨pre ++ (mid ++ post), i⟩ n
      = (some mid, ⟨pre ++ (mid ++ post), j⟩) := by
  subst hi hn hj
  exact ByteStream.read_exact pre mid post _ rfl

theorem read_short_at (pre tail : List Nat) (i n : Nat)
    (hi : pre.length = i) (h : tail.length < n) :
    ByteStream.read ⟨pre ++ tail, i⟩ n = (none, ⟨pre ++ tail, i⟩) := by
  subst hi
  exact ByteStream.read_short pre tail n h

theorem parseTagF_succ (fuel : Nat) (bs : ByteStream) :
    parseTagF (fuel + 1) bs = parseTagStep (parseTagF fuel) bs := rfl

/-- One `parseTag` call on a buffer holding a complete tag: the 4 type
bytes, 4 length bytes and the declared payload are consumed and handed
to the dispatch. -/
theorem parseTagStep_payload
    (rec : ByteStream → Except JsErr (Option Tag × ByteStream))
    (ty lenb payload rest : List Nat)
    (h4 : ty.length = 4) (hl : lenb.length = 4) (hL : be32 lenb = payload.length) :
    parseTagStep rec ⟨ty ++ (lenb ++ (payload ++ rest)), 0⟩
      = dispatchTag rec (asciiKey ty) (some payload)
          ⟨ty ++ (lenb ++ (payload ++ rest)), 8 + payload.length⟩ := by
  unfold parseTagStep
  rw [read_at0 ty (lenb ++ (payload ++ rest)) 4 h4]
  dsimp only
  rw [read_at ty lenb (payload ++ rest) 4 4 8 h4 hl rfl]
  dsimp only
  rw [hL, ← List.append_assoc ty lenb (payload ++ rest)]
  rw [read_at (ty ++ lenb) payload rest 8 payload.length (8 + payload.length)
    (by simp [h4, hl]) rfl rfl]

/-- One `parseTag` call on a buffer whose declared payload length
exceeds the remaining bytes: the payload read returns `null` and the
dispatch receives `none`, with the cursor still right after the length
field. -/
theorem parseTagStep_trunc
    (rec : ByteStream → Except JsErr (Option Tag × ByteStream))
    (ty lenb tail : List Nat)
    (h4 : ty.length = 4) (hl : lenb.length = 4) (hshort : tail.length < be32 lenb) :
    parseTagStep rec ⟨ty ++ (lenb ++ tail), 0⟩
      = dispatchTag rec (asciiKey ty) none ⟨ty ++ (lenb ++ tail), 8⟩ := by
  unfold parseTagStep
  rw [read_at0 ty (lenb ++ tail) 4 h4]
  dsimp only
  rw [read_at ty lenb tail 4 4 8 h4 hl rfl]
  dsimp only
  rw [← List.append_assoc ty lenb tail]
  rw [read_short_at (ty ++ lenb) tail 8 (be32 lenb) (by simp [h4, hl]) hshort]

theorem dispatchTag_text_odd
    (rec : ByteStream → Except JsErr (Option Tag × ByteStream))
    (key p : List Nat) (bs3 : ByteStream)
    (hk : key = VRSN ∨ key = TVCN ∨ key = PTRK) (hodd : p.length % 2 = 1) :
    dispatchTag rec key (some p) bs3 = .error .rangeError := by
  have hd : decodeText p = .error .rangeError := by simp [decodeText, hodd]
  rcases hk with rfl | rfl | rfl <;>
    simp [dispatchTag, hd, VRSN, TVCN, PTRK, OVCT, OSRT, OTRK, ORVC]

/-! ## C10 — odd-length text payloads throw -/

/-- C10: a crate tag of a text-payload type (`vrsn`, `tvcn`, `ptrk`)
whose declared length is odd and whose payload bytes are available
makes `parseTag` throw (`swap16`'s `RangeError`) instead of returning a
tag or reporting any of the spec's named error kinds. -/
theorem textTag_odd_payload_throws (ty payload rest : List Nat)
    (hty : ty = VRSN ∨ ty = TVCN ∨ ty = PTRK)
    (hodd : payload.length % 2 = 1) (hlen : payload.length < 4294967296) :
    parseTagBytes (ty ++ (be32enc payload.length ++ (payload ++ rest)))
      = .error .rangeError := by
  have h4 : ty.length = 4 := by rcases hty with rfl | rfl | rfl <;> rfl
  have hkey : asciiKey ty = VRSN ∨ asciiKey ty = TVCN ∨ asciiKey ty = PTRK := by
    rcases hty with rfl | rfl | rfl
    · exact Or.inl rfl
    · exact Or.inr (Or.inl rfl)
    · exact Or.inr (Or.inr rfl)
  unfold parseTagBytes
  rw [parseTagF_succ,
    parseTagStep_payload _ ty (be32enc payload.length) payload rest h4 rfl
      (be32_be32enc _ hlen)]
  exact dispatchTag_text_odd _ _ _ _ hkey hodd

/-- Witness for C10: a `vrsn` tag with declared length 1 and a single
payload byte throws the `RangeError`. -/
theorem textTag_odd_payload_throws_witness :
    parseTagBytes [0x76, 0x72, 0x73, 0x6e, 0, 0, 0, 1, 0] = .error .rangeError :=
  textTag_odd_payload_throws VRSN [0] [] (Or.inl rfl) rfl (by decide)

/-! ## C1 — truncated payloads -/

/-- Counterexample for C1: a tag with unknown type `"zzzz"` declaring a
5-byte payload in a buffer with zero payload bytes remaining parses
*successfully* into an `UnknownTag` carrying an absent (`null`)
payload — no `TruncatedPayload` (or any other) error is raised and the
bytes are classified as an unknown tag. -/
theorem truncated_unknown_tag_ce :
    parseTagBytes [122, 122, 122, 122, 0, 0, 0, 5]
      = .ok (some (.unknown [122, 122, 122, 122] none),
          ⟨[122, 122, 122, 122, 0, 0, 0, 5], 8⟩) := rfl

/-- C1 as amended: when a tag's declared 4-byte big-endian payload
length exceeds the bytes remaining after the length field, the outcome
depends on the tag type: for the seven known types the constructor
throws a `TypeError` on the `null` payload (decoding fails, though not
with a named `TruncatedPayload` error), while for unknown types
`parseTag` returns an `UnknownTag` with an absent payload instead of
failing. -/
theorem truncated_tag_behavior (ty lenb tail : List Nat)
    (h4 : ty.length = 4) (hl : lenb.length = 4) (hshort : tail.length < be32 lenb) :
    (asciiKey ty ∈ knownKeys →
      parseTagBytes (ty ++ (lenb ++ tail)) = .error .typeError)
    ∧ (asciiKey ty ∉ knownKeys →
      parseTagBytes (ty ++ (lenb ++ tail))
        = .ok (some (.unknown (asciiKey ty) none), ⟨ty ++ (lenb ++ tail), 8⟩)) := by
  unfold parseTagBytes
  rw [parseTagF_succ, parseTagStep_trunc _ ty lenb tail h4 hl hshort]
  constructor
  · intro hk
    simp only [knownKeys, List.mem_cons, List.mem_singleton, List.not_mem_nil, or_false] at hk
    rcases hk with h | h | h | h | h | h | h <;>
      rw [h] <;> simp [dispatchTag, VRSN, TVCN, PTRK, OVCT, OSRT, OTRK, ORVC]
  · intro hk
    simp only [knownKeys, List.mem_cons, List.mem_singleton, not_or] at hk
    obtain ⟨h1, h2, h3, h4k, h5, h6, h7⟩ := hk
    simp [dispatchTag, h1, h2, h3, h4k, h5, h6, h7]

/-- Witness for the amended C1: in the known case a truncated `vrsn`
tag throws the `TypeError`; in the unknown case a truncated `"zzzz"`
tag parses into an `UnknownTag` with `null` payload. -/
theorem truncated_tag_behavior_witness :
    parseTagBytes (VRSN ++ ([0, 0, 0, 9] ++ [])) = .error .typeError
      ∧ parseTagBytes ([122, 122, 122, 122] ++ ([0, 0, 0, 5] ++ [0, 1]))
        = .ok (some (.unknown (asciiKey [122, 122, 122, 122]) none),
            ⟨[122, 122, 122, 122] ++ ([0, 0, 0, 5] ++ [0, 1]), 8⟩) :=
  ⟨(truncated_tag_behavior VRSN [0, 0, 0, 9] [] rfl rfl (by decide)).1 (by decide),
    (truncated_tag_behavior [122, 122, 122, 122] [0, 0, 0, 5] [0, 1] rfl rfl
      (by decide)).2 (by decide)⟩

/-! ## `buildTrackMap` characterization -/

/-- The reference shape of the map after inserting the accepted paths
`ks` in order, with keys counted from `k`. -/
def mapOf (env : FsEnv α) : Nat → List String → List (String × TMEntry α)
  | _, [] => []
  | k, t :: ts =>
    (t, ⟨k, env.resolvePath t, env.convertTrack (env.resolvePath t)⟩) :: mapOf env (k + 1) ts

/-- The `buildTrackMap` state determined by the ordered list of
inserted paths. -/
def stateOf (env : FsEnv α) (ks : List String) : TMState α :=
  ⟨mapOf env 1 ks, ks⟩

/-- The effect of one loop iteration on the inserted-path list. -/
def insertSeen (env : FsEnv α) (acc : List String) (t : String) : List String :=
  if t ∈ acc then acc
  else if acceptTrack env t then acc ++ [t]
  else acc

theorem mapOf_append (env : FsEnv α) (t : String) :
    ∀ (ks : List String) (k : Nat),
      mapOf env k (ks ++ [t])
        = mapOf env k ks
            ++ [(t, ⟨k + ks.length, env.resolvePath t,
                env.convertTrack (env.resolvePath t)⟩)] := by
  intro ks
  induction ks with
  | nil => simp [mapOf]
  | cons a tl ih =>
    intro k
    simp only [List.cons_append, mapOf, List.length_cons, List.append_eq]
    have h : k + 1 + tl.length = k + (tl.length + 1) := by omega
    rw [ih (k + 1), h]

theorem length_mapOf (env : FsEnv α) :
    ∀ (ks : List String) (k : Nat), (mapOf env k ks).length = ks.length := by
  intro ks
  induction ks with
  | nil => simp [mapOf]
  | cons a tl ih => intro k; simp [mapOf, ih]

theorem lookup_mapOf (env : FsEnv α) (t : String) :
    ∀ (ks : List String) (k : Nat),
      ((mapOf env k ks).lookup t).isSome = true ↔ t ∈ ks := by
  intro ks
  induction ks with
  | nil => simp [mapOf]
  | cons a tl ih =>
    intro k
    by_cases hta : t = a
    · simp [mapOf, List.lookup, hta]
    · have : (t == a) = false := by simpa using hta
      simp [mapOf, List.lookup, this, ih (k + 1), hta]

theorem keys_mapOf (env : FsEnv α) :
    ∀ (ks : List String) (k : Nat),
      (mapOf env k ks).map (fun e => e.2.key) = List.range' k ks.length := by
  intro ks
  induction ks with
  | nil => simp [mapOf]
  | cons a tl ih => intro k; simp [mapOf, List.range'_succ, ih (k + 1)]

theorem fst_mapOf (env : FsEnv α) :
    ∀ (ks : List String) (k : Nat), (mapOf env k ks).map Prod.fst = ks := by
  intro ks
  induction ks with
  | nil => simp [mapOf]
  | cons a tl ih => intro k; simp [mapOf, ih (k + 1)]

theorem addTrack_stateOf (env : FsEnv α) (ks : List String) (t : String) :
    addTrack env (stateOf env ks) t = stateOf env (insertSeen env ks t) := by
  have hl := lookup_mapOf env t ks 1
  by_cases hmem : t ∈ ks
  · have : ((mapOf env 1 ks).lookup t).isSome = true := hl.mpr hmem
    simp [addTrack, insertSeen, stateOf, this, hmem]
  · have hno : ¬ ((mapOf env 1 ks).lookup t).isSome = true := fun h => hmem (hl.mp h)
    by_cases hacc : acceptTrack env t
    · simp [addTrack, insertSeen, stateOf, hno, hmem, hacc, mapOf_append,
        length_mapOf, Nat.add_comm]
    · simp [addTrack, insertSeen, stateOf, hno, hmem, hacc]

theorem foldl_addTrack (env : FsEnv α) :
    ∀ (flat : List String) (ks : List String),
      flat.foldl (addTrack env) (stateOf env ks)
        = stateOf env (flat.foldl (insertSeen env) ks) := by
  intro flat
  induction flat with
  | nil => intro ks; rfl
  | cons t tl ih =>
    intro ks
    simp only [List.foldl_cons, addTrack_stateOf, ih]

theorem buildTrackMap_eq (env : FsEnv α) (pls : List Playlist) :
    buildTrackMap env pls
      = stateOf env
          (((pls.map Playlist.tracks).flatten).foldl (insertSeen env) []) := by
  have hgen : ∀ (ps : List Playlist) (st : TMState α),
      ps.foldl (fun st pl => pl.tracks.foldl (addTrack env) st) st
        = ((ps.map Playlist.tracks).flatten).foldl (addTrack env) st := by
    intro ps
    induction ps with
    | nil => intro st; simp
    | cons p tl ih => intro st; simp [List.foldl_append, ih]
  unfold buildTrackMap
  rw [hgen]
  have h0 : (⟨[], []⟩ : TMState α) = stateOf env [] := rfl
  rw [h0, foldl_addTrack]

theorem mem_insertSeen (env : FsEnv α) (acc : List String) (t p : String) :
    p ∈ insertSeen env acc t ↔ p ∈ acc ∨ (p = t ∧ acceptTrack env t = true) := by
  unfold insertSeen
  split_ifs with h1 h2
  · constructor
    · exact Or.inl
    · rintro (h | ⟨rfl, -⟩)
      · exact h
      · exact h1
  · simp only [List.mem_append, List.mem_singleton]
    constructor
    · rintro (h | rfl)
      · exact Or.inl h
      · exact Or.inr ⟨rfl, h2⟩
    · rintro (h | ⟨rfl, -⟩)
      · exact Or.inl h
      · exact Or.inr rfl
  · constructor
    · exact Or.inl
    · rintro (h | ⟨rfl, hacc⟩)
      · exact h
      · exact absurd hacc h2

theorem mem_foldl_insertSeen (env : FsEnv α) :
    ∀ (flat acc : List String) (p : String),
      p ∈ flat.foldl (insertSeen env) acc
        ↔ p ∈ acc ∨ (p ∈ flat ∧ acceptTrack env p = true) := by
  intro flat
  induction flat with
  | nil => simp
  | cons t tl ih =>
    intro acc p
    rw [List.foldl_cons, ih, mem_insertSeen]
    constructor
    · rintro ((h | ⟨rfl, ha⟩) | ⟨h, ha⟩)
      · exact Or.inl h
      · exact Or.inr ⟨List.mem_cons_self _ _, ha⟩
      · exact Or.inr ⟨List.mem_cons_of_mem _ h, ha⟩
    · rintro (h | ⟨h, ha⟩)
      · exact Or.inl (Or.inl h)
      · rcases List.mem_cons.mp h with rfl | h
        · exact Or.inl (Or.inr ⟨rfl, ha⟩)
        · exact Or.inr ⟨h, ha⟩

theorem nodup_foldl_insertSeen (env : FsEnv α) :
    ∀ (flat acc : List String), acc.Nodup → (flat.foldl (insertSeen env) acc).Nodup := by
  intro flat
  induction flat with
  | nil => intro acc h; exact h
  | cons t tl ih =>
    intro acc h
    rw [List.foldl_cons]
    apply ih
    unfold insertSeen
    split_ifs with h1 h2
    · exact h
    · simp [List.nodup_append, h, h1]
    · exact h

/-! ## C4 — TrackMap deduplication and sequential keys -/

/-- C4: for every environment and playlist list processed in playlist
order then track order, the built TrackMap's keys are exactly
`1, 2, …, n` in insertion order, each distinct track path appears at
most once, and the `convertTrack` pipeline ran exactly once per
inserted path (the invocation log equals the map's path list); in
particular, two playlists both referencing `"A.mp3"` (accepted first)
yield exactly one entry for it, with key 1. -/
theorem buildTrackMap_dedup_keys :
    (∀ (α : Type) (env : FsEnv α) (pls : List Playlist),
      ((buildTrackMap env pls).map.map fun e => e.2.key)
          = List.range' 1 (buildTrackMap env pls).map.length
        ∧ ((buildTrackMap env pls).map.map Prod.fst).Nodup
        ∧ (buildTrackMap env pls).log = (buildTrackMap env pls).map.map Prod.fst)
    ∧ (buildTrackMap (⟨id, fun _ => true, id⟩ : FsEnv String)
          [⟨"P1", ["A.mp3"]⟩, ⟨"P2", ["A.mp3"]⟩]).map
        = [("A.mp3", ⟨1, "A.mp3", "A.mp3"⟩)] := by
  constructor
  · intro α env pls
    rw [buildTrackMap_eq]
    unfold stateOf
    refine ⟨?_, ?_, ?_⟩
    · rw [keys_mapOf, length_mapOf]
    · rw [fst_mapOf]
      exact nodup_foldl_insertSeen env _ [] List.nodup_nil
    · rw [fst_mapOf]
  · rfl

/-! ## C7 — which tracks are inserted -/

/-- Counterexample for C7: `.wav` is in the app's supported-extension
list and the file exists under the oracle, yet `buildTrackMap` inserts
nothing for `"B.wav"` — its check admits only `.mp3`. -/
theorem wav_track_skipped_ce :
    ".wav" ∈ SUPPORTED_FILE_TYPES
      ∧ (fun (_ : String) => true) ((id : String → String) "B.wav") = true
      ∧ (buildTrackMap (⟨id, fun _ => true, id⟩ : FsEnv String)
          [⟨"P", ["B.wav"]⟩]).map = [] :=
  ⟨by simp [SUPPORTED_FILE_TYPES], rfl, rfl⟩

/-- C7 as amended: `buildTrackMap` inserts a path (and runs the
per-track pipeline for it) iff it occurs in some playlist, its
resolved file exists, and its extension lowercases to `.mp3`; existing
files with the other supported extensions (`.wav`, `.flac`) are never
inserted by this check. -/
theorem buildTrackMap_membership (α : Type) (env : FsEnv α)
    (pls : List Playlist) (p : String) :
    p ∈ (buildTrackMap env pls).map.map Prod.fst
      ↔ (p ∈ (pls.map Playlist.tracks).flatten
          ∧ env.fileExists (env.resolvePath p) = true
          ∧ lowerStr (extname (env.resolvePath p)) = ".mp3") := by
  rw [buildTrackMap_eq]
  unfold stateOf
  rw [fst_mapOf, mem_foldl_insertSeen]
  simp only [List.not_mem_nil, false_or]
  unfold acceptTrack
  rw [Bool.and_eq_true, beq_iff_eq]

/-! ## Round-trip infrastructure (C6) -/

/-- The 4 type bytes a tag re-encodes to. -/
def typeKey : Tag → List Nat
  | .metadata _ => VRSN
  | .columnName _ => TVCN
  | .trackName _ => PTRK
  | .column _ _ => OVCT
  | .firstColumn _ _ => OSRT
  | .track _ => OTRK
  | .unknownPayload _ => ORVC
  | .unknown ty _ => ty

/-- The payload bytes a tag re-encodes to. -/
def payloadBytes : Tag → List Nat
  | .metadata u => encText u
  | .columnName u => encText u
  | .trackName u => encText u
  | .column t1 t2 => encOpt t1 ++ encOpt t2
  | .firstColumn t1 t2 => encOpt t1 ++ encOpt t2
  | .track t1 => encOpt t1
  | .unknownPayload t1 => encOpt t1
  | .unknown _ pl => pl.getD []

theorem encodeTag_eq (t : Tag) :
    encodeTag t
      = typeKey t ++ (be32enc (payloadBytes t).length ++ payloadBytes t) := by
  cases t <;> simp [encodeTag, typeKey, payloadBytes]

theorem typeKey_len (t : Tag) (h : wfTag t = true) : (typeKey t).length = 4 := by
  cases t with
  | unknown ty pl =>
    cases pl with
    | none => simp [wfTag] at h
    | some l =>
      simp only [wfTag, Bool.and_eq_true, beq_iff_eq] at h
      exact h.1.1.1
  | _ => rfl

theorem length_encodeTag (t : Tag) (h : wfTag t = true) :
    (encodeTag t).length = 8 + (payloadBytes t).length := by
  rw [encodeTag_eq]
  simp [typeKey_len t h]
  omega

theorem encodeTag_ge8 (t : Tag) (h : wfTag t = true) :
    8 ≤ (encodeTag t).length := by
  rw [length_encodeTag t h]
  omega

theorem encText_cons (a : Nat) (l : List Nat) :
    encText (a :: l) = a / 256 :: a % 256 :: encText l := rfl

theorem length_encText (u : List Nat) : (encText u).length = 2 * u.length := by
  induction u with
  | nil => rfl
  | cons a l ih => rw [encText_cons]; simp [ih]; omega

theorem utf16beUnits_encText (u : List Nat) : utf16beUnits (encText u) = u := by
  induction u with
  | nil => rfl
  | cons a l ih =>
    rw [encText_cons]
    show (a / 256 * 256 + a % 256) :: utf16beUnits (encText l) = a :: l
    rw [ih]
    congr 1
    omega

theorem decodeText_encText (u : List Nat) : decodeText (encText u) = .ok u := by
  have hlen : (encText u).length % 2 = 0 := by rw [length_encText]; omega
  simp [decodeText, hlen, utf16beUnits_encText]

theorem asciiKey_of_ascii (l : List Nat) (h : ∀ b ∈ l, b < 128) :
    asciiKey l = l := by
  unfold asciiKey
  induction l with
  | nil => rfl
  | cons a tl ih =>
    have ha : a % 128 = a := Nat.mod_eq_of_lt (h a (List.mem_cons_self _ _))
    simp only [List.map_cons, ha]
    rw [ih fun b hb => h b (List.mem_cons_of_mem _ hb)]

theorem parseTagF_end (fuel : Nat) (bs : ByteStream)
    (h : bs.read 4 = (none, bs)) : parseTagF fuel bs = .ok (none, bs) := by
  cases fuel with
  | zero =>
    show (match bs.read 4 with
          | (none, _) => Except.ok (none, bs)
          | (some _, _) => Except.error JsErr.outOfFuel) = _
    rw [h]
  | succ f =>
    rw [parseTagF_succ]
    unfold parseTagStep
    rw [h]

/-- A `parseTag` step described through the buffer suffix at the
cursor: if the bytes at the cursor are a complete tag header and
payload, they are consumed and handed to the dispatch. -/
theorem parseTagStep_at (rec : ByteStream → Except JsErr (Option Tag × ByteStream))
    (B : List Nat) (i : Nat) (ty lenb payload post : List Nat)
    (h4 : ty.length = 4) (hl : lenb.length = 4) (hL : be32 lenb = payload.length)
    (hdrop : B.drop i = ty ++ (lenb ++ (payload ++ post))) (hi : i ≤ B.length) :
    parseTagStep rec ⟨B, i⟩
      = dispatchTag rec (asciiKey ty) (some payload)
          ⟨B, i + (8 + payload.length)⟩ := by
  have hBlen : B.length = i + (4 + (4 + (payload.length + post.length))) := by
    have hld := congrArg List.length hdrop
    simp [h4, hl] at hld
    omega
  have hd1 : (B.drop i).take 4 = ty := by
    rw [hdrop, ← h4, List.take_left]
  have hd2 : B.drop (i + 4) = lenb ++ (payload ++ post) := by
    rw [← List.drop_drop, hdrop, ← h4, List.drop_left]
  have hd3 : B.drop (i + 4 + 4) = payload ++ post := by
    rw [← List.drop_drop, hd2, ← hl, List.drop_left]
  have r1 : ByteStream.read ⟨B, i⟩ 4 = (some ty, ⟨B, i + 4⟩) := by
    rw [ByteStream.read_some B i 4 (by omega), hd1]
  have r2 : ByteStream.read ⟨B, i + 4⟩ 4 = (some lenb, ⟨B, i + 4 + 4⟩) := by
    rw [ByteStream.read_some B (i + 4) 4 (by omega)]
    rw [show (B.drop (i + 4)).take 4 = lenb by rw [hd2, ← hl, List.take_left]]
  have r3 : ByteStream.read ⟨B, i + 4 + 4⟩ payload.length
      = (some payload, ⟨B, i + 4 + 4 + payload.length⟩) := by
    rw [ByteStream.read_some B (i + 4 + 4) payload.length (by omega)]
    rw [show (B.drop (i + 4 + 4)).take payload.length = payload by
      rw [hd3, List.take_left]]
  unfold parseTagStep
  rw [r1]
  dsimp only
  rw [r2]
  dsimp only
  rw [hL, r3]
  dsimp only
  rw [show i + 4 + 4 + payload.length = i + (8 + payload.length) by omega]

theorem payloadBytes_lt (t : Tag) (h : wfTag t = true) :
    (payloadBytes t).length < 4294967296 := by
  cases t with
  | metadata u =>
    simp only [wfTag, textOK, Bool.and_eq_true, decide_eq_true_eq] at h
    simp [payloadBytes, length_encText]
    omega
  | columnName u =>
    simp only [wfTag, textOK, Bool.and_eq_true, decide_eq_true_eq] at h
    simp [payloadBytes, length_encText]
    omega
  | trackName u =>
    simp only [wfTag, textOK, Bool.and_eq_true, decide_eq_true_eq] at h
    simp [payloadBytes, length_encText]
    omega
  | column t1 t2 =>
    simp only [wfTag, Bool.and_eq_true, decide_eq_true_eq] at h
    exact h.2
  | firstColumn t1 t2 =>
    simp only [wfTag, Bool.and_eq_true, decide_eq_true_eq] at h
    exact h.2
  | track t1 =>
    simp only [wfTag, Bool.and_eq_true, decide_eq_true_eq] at h
    exact h.2
  | unknownPayload t1 =>
    simp only [wfTag, Bool.and_eq_true, decide_eq_true_eq] at h
    exact h.2
  | unknown ty pl =>
    cases pl with
    | none => simp [wfTag] at h
    | some l =>
      simp only [wfTag, Bool.and_eq_true, decide_eq_true_eq] at h
      simpa [payloadBytes] using h.2

/-- Parsing the re-encoding of a well-formed tag embedded at the cursor
recovers exactly that tag and moves the cursor past it. -/
theorem parse_encodeTag :
    ∀ (n : Nat) (t : Tag), (encodeTag t).length ≤ n → wfTag t = true →
    ∀ (pre rest : List Nat) (fuel : Nat), (encodeTag t).length ≤ fuel →
      parseTagF fuel ⟨pre ++ (encodeTag t ++ rest), pre.length⟩
        = .ok (some t,
            ⟨pre ++ (encodeTag t ++ rest), pre.length + (encodeTag t).length⟩) := by
  intro n
  induction n using Nat.strong_induction_on with
  | _ n IH =>
  intro t hn hwf pre rest fuel hfuel
  have hge8 := encodeTag_ge8 t hwf
  have hlen := length_encodeTag t hwf
  obtain ⟨f, rfl⟩ : ∃ f, fuel = f + 1 := ⟨fuel - 1, by omega⟩
  rw [parseTagF_succ]
  have hdrop : (pre ++ (encodeTag t ++ rest)).drop pre.length
      = typeKey t ++ (be32enc (payloadBytes t).length ++ (payloadBytes t ++ rest)) := by
    rw [List.drop_left, encodeTag_eq t]
    simp [List.append_assoc]
  rw [parseTagStep_at (parseTagF f) _ pre.length (typeKey t)
    (be32enc (payloadBytes t).length) (payloadBytes t) rest
    (typeKey_len t hwf) rfl (be32_be32enc _ (payloadBytes_lt t hwf)) hdrop (by simp)]
  rw [hlen]
  cases t with
  | metadata u =>
    simp only [typeKey, payloadBytes]
    rw [show asciiKey VRSN = VRSN from rfl]
    simp [dispatchTag, decodeText_encText]
  | columnName u =>
    simp only [typeKey, payloadBytes]
    rw [show asciiKey TVCN = TVCN from rfl]
    simp [dispatchTag, decodeText_encText, TVCN, VRSN]
  | trackName u =>
    simp only [typeKey, payloadBytes]
    rw [show asciiKey PTRK = PTRK from rfl]
    simp [dispatchTag, decodeText_encText, PTRK, VRSN, TVCN]
  | column t1 t2 =>
    simp only [typeKey, payloadBytes]
    rw [show asciiKey OVCT = OVCT from rfl]
    rw [show (dispatchTag (parseTagF f) OVCT
        (some (encOpt t1 ++ encOpt t2))
        ⟨pre ++ (encodeTag (.column t1 t2) ++ rest),
          pre.length + (8 + (encOpt t1 ++ encOpt t2).length)⟩)
      = (match parseTagF f ⟨encOpt t1 ++ encOpt t2, 0⟩ with
         | .error e => .error e
         | .ok (s1, str1) =>
           match parseTagF f str1 with
           | .error e => .error e
           | .ok (s2, _) => .ok (some (.column s1 s2),
               ⟨pre ++ (encodeTag (.column t1 t2) ++ rest),
                 pre.length + (8 + (encOpt t1 ++ encOpt t2).length)⟩))
      from by rw [dispatchTag]; rfl]
    cases t1 with
    | some c1 =>
      have hw1 : wfTag c1 = true := by
        simp only [wfTag, wfOpt, Bool.and_eq_true] at hwf
        exact hwf.1.1.1
      have hc1lt : (encodeTag c1).length + 8 ≤ (encodeTag (.column (some c1) t2)).length := by
        rw [length_encodeTag _ hwf]
        simp [payloadBytes, encOpt]
        omega
      have h1 := IH (encodeTag c1).length (by omega) c1 le_rfl hw1 [] (encOpt t2) f
        (by omega)
      simp only [List.nil_append, List.length_nil, Nat.zero_add] at h1
      simp only [encOpt] at h1 ⊢
      rw [h1]
      dsimp only
      cases t2 with
      | some c2 =>
        have hw2 : wfTag c2 = true := by
          simp only [wfTag, wfOpt, Bool.and_eq_true] at hwf
          exact hwf.1.1.2
        have hc2lt : (encodeTag c1).length + (encodeTag c2).length + 8
            ≤ (encodeTag (.column (some c1) (some c2))).length := by
          rw [length_encodeTag _ hwf]
          simp [payloadBytes, encOpt]
          omega
        have h2 := IH (encodeTag c2).length (by omega) c2 le_rfl hw2
          (encodeTag c1) [] f (by omega)
        simp only [List.append_nil] at h2
        simp only [encOpt]
        rw [h2]
      | none =>
        simp only [encOpt, List.append_nil]
        rw [parseTagF_end f _ (ByteStream.read_none _ _ _ (by omega))]
    | none =>
      cases t2 with
      | some c2 => simp [wfTag, wfOpt] at hwf
      | none =>
        simp only [encOpt, List.nil_append]
        rw [parseTagF_end f _ (ByteStream.read_none _ _ _ (by decide))]
        dsimp only
        rw [parseTagF_end f _ (ByteStream.read_none _ _ _ (by decide))]
  | firstColumn t1 t2 =>
    simp only [typeKey, payloadBytes]
    rw [show asciiKey OSRT = OSRT from rfl]
    rw [show (dispatchTag (parseTagF f) OSRT
        (some (encOpt t1 ++ encOpt t2))
        ⟨pre ++ (encodeTag (.firstColumn t1 t2) ++ rest),
          pre.length + (8 + (encOpt t1 ++ encOpt t2).length)⟩)
      = (match parseTagF f ⟨encOpt t1 ++ encOpt t2, 0⟩ with
         | .error e => .error e
         | .ok (s1, str1) =>
           match parseTagF f str1 with
           | .error e => .error e
           | .ok (s2, _) => .ok (some (.firstColumn s1 s2),
               ⟨pre ++ (encodeTag (.firstColumn t1 t2) ++ rest),
                 pre.length + (8 + (encOpt t1 ++ encOpt t2).length)⟩))
      from by rw [dispatchTag]; rfl]
    cases t1 with
    | some c1 =>
      have hw1 : wfTag c1 = true := by
        simp only [wfTag, wfOpt, Bool.and_eq_true] at hwf
        exact hwf.1.1.1
      have hc1lt : (encodeTag c1).length + 8
          ≤ (encodeTag (.firstColumn (some c1) t2)).length := by
        rw [length_encodeTag _ hwf]
        simp [payloadBytes, encOpt]
        omega
      have h1 := IH (encodeTag c1).length (by omega) c1 le_rfl hw1 [] (encOpt t2) f
        (by omega)
      simp only [List.nil_append, List.length_nil, Nat.zero_add] at h1
      simp only [encOpt] at h1 ⊢
      rw [h1]
      dsimp only
      cases t2 with
      | some c2 =>
        have hw2 : wfTag c2 = true := by
          simp only [wfTag, wfOpt, Bool.and_eq_true] at hwf
          exact hwf.1.1.2
        have hc2lt : (encodeTag c1).length + (encodeTag c2).length + 8
            ≤ (encodeTag (.firstColumn (some c1) (some c2))).length := by
          rw [length_encodeTag _ hwf]
          simp [payloadBytes, encOpt]
          omega
        have h2 := IH (encodeTag c2).length (by omega) c2 le_rfl hw2
          (encodeTag c1) [] f (by omega)
        simp only [List.append_nil] at h2
        simp only [encOpt]
        rw [h2]
      | none =>
        simp only [encOpt, List.append_nil]
        rw [parseTagF_end f _ (ByteStream.read_none _ _ _ (by omega))]
    | none =>
      cases t2 with
      | some c2 => simp [wfTag, wfOpt] at hwf
      | none =>
        simp only [encOpt, List.nil_append]
        rw [parseTagF_end f _ (ByteStream.read_none _ _ _ (by decide))]
        dsimp only
        rw [parseTagF_end f _ (ByteStream.read_none _ _ _ (by decide))]
  | track t1 =>
    simp only [typeKey, payloadBytes]
    rw [show asciiKey OTRK = OTRK from rfl]
    rw [show (dispatchTag (parseTagF f) OTRK (some (encOpt t1))
        ⟨pre ++ (encodeTag (.track t1) ++ rest),
          pre.length + (8 + (encOpt t1).length)⟩)
      = (match parseTagF f ⟨encOpt t1, 0⟩ with
         | .error e => .error e
         | .ok (s1, _) => .ok (some (.track s1),
             ⟨pre ++ (encodeTag (.track t1) ++ rest),
               pre.length + (8 + (encOpt t1).length)⟩))
      from by rw [dispatchTag]; rfl]
    cases t1 with
    | some c1 =>
      have hw1 : wfTag c1 = true := by
        simp only [wfTag, wfOpt, Bool.and_eq_true] at hwf
        exact hwf.1
      have hc1lt : (encodeTag c1).length + 8 ≤ (encodeTag (.track (some c1))).length := by
        rw [length_encodeTag _ hwf]
        simp [payloadBytes, encOpt]
        omega
      have h1 := IH (encodeTag c1).length (by omega) c1 le_rfl hw1 [] [] f (by omega)
      simp only [List.nil_append, List.length_nil, Nat.zero_add, List.append_nil] at h1
      simp only [encOpt]
      rw [h1]
    | none =>
      simp only [encOpt]
      rw [parseTagF_end f _ (ByteStream.read_none _ _ _ (by decide))]
  | unknownPayload t1 =>
    simp only [typeKey, payloadBytes]
    rw [show asciiKey ORVC = ORVC from rfl]
    rw [show (dispatchTag (parseTagF f) ORVC (some (encOpt t1))
        ⟨pre ++ (encodeTag (.unknownPayload t1) ++ rest),
          pre.length + (8 + (encOpt t1).length)⟩)
      = (match parseTagF f ⟨encOpt t1, 0⟩ with
         | .error e => .error e
         | .ok (s1, _) => .ok (some (.unknownPayload s1),
             ⟨pre ++ (encodeTag (.unknownPayload t1) ++ rest),
               pre.length + (8 + (encOpt t1).length)⟩))
      from by rw [dispatchTag]; rfl]
    cases t1 with
    | some c1 =>
      have hw1 : wfTag c1 = true := by
        simp only [wfTag, wfOpt, Bool.and_eq_true] at hwf
        exact hwf.1
      have hc1lt : (encodeTag c1).length + 8
          ≤ (encodeTag (.unknownPayload (some c1))).length := by
        rw [length_encodeTag _ hwf]
        simp [payloadBytes, encOpt]
        omega
      have h1 := IH (encodeTag c1).length (by omega) c1 le_rfl hw1 [] [] f (by omega)
      simp only [List.nil_append, List.length_nil, Nat.zero_add, List.append_nil] at h1
      simp only [encOpt]
      rw [h1]
    | none =>
      simp only [encOpt]
      rw [parseTagF_end f _ (ByteStream.read_none _ _ _ (by decide))]
  | unknown ty pl =>
    cases pl with
    | none => simp [wfTag] at hwf
    | some l =>
      simp only [wfTag, Bool.and_eq_true, beq_iff_eq, List.all_eq_true,
        decide_eq_true_eq, Bool.not_eq_true'] at hwf
      obtain ⟨⟨⟨hty4, hascii⟩, hnk⟩, hl32⟩ := hwf
      simp only [typeKey, payloadBytes, Option.getD]
      rw [asciiKey_of_ascii ty hascii]
      have hmem : ty ∉ knownKeys := by simpa using hnk
      have hne : ∀ k, k ∈ knownKeys → ty ≠ k := fun k hk he => hmem (he ▸ hk)
      have e1 : ty ≠ VRSN := hne _ (by decide)
      have e2 : ty ≠ TVCN := hne _ (by decide)
      have e3 : ty ≠ PTRK := hne _ (by decide)
      have e4 : ty ≠ OVCT := hne _ (by decide)
      have e5 : ty ≠ OSRT := hne _ (by decide)
      have e6 : ty ≠ OTRK := hne _ (by decide)
      have e7 : ty ≠ ORVC := hne _ (by decide)
      simp [dispatchTag, e1, e2, e3, e4, e5, e6, e7]

theorem encTagList_nil : encTagList [] = [] := rfl

theorem encTagList_cons (t : Tag) (ts : List Tag) :
    encTagList (t :: ts) = encodeTag t ++ encTagList ts := rfl

theorem parseTagsF_succ (fuel : Nat) (bs : ByteStream) :
    parseTagsF (fuel + 1) bs
      = (match parseTagF fuel bs with
         | .error e => .error e
         | .ok (none, _) => .ok []
         | .ok (some t, bs1) =>
           match parseTagsF fuel bs1 with
           | .error e => .error e
           | .ok ts => .ok (t :: ts)) := rfl

/-- The `parseCrate` loop on the encoding of a well-formed tag sequence
placed after `pre` recovers exactly that sequence. -/
theorem parse_encTagList :
    ∀ (ts : List Tag), (∀ t ∈ ts, wfTag t = true) →
    ∀ (pre : List Nat) (fuel : Nat), (encTagList ts).length + 1 ≤ fuel →
      parseTagsF fuel ⟨pre ++ encTagList ts, pre.length⟩ = .ok ts := by
  intro ts
  induction ts with
  | nil =>
    intro h pre fuel hf
    obtain ⟨f, rfl⟩ : ∃ f, fuel = f + 1 := ⟨fuel - 1, by omega⟩
    rw [parseTagsF_succ]
    rw [parseTagF_end f _ (ByteStream.read_none _ _ _
      (by simp only [encTagList_nil, List.append_nil]; omega))]
  | cons t ts2 ih =>
    intro h pre fuel hf
    have hwt : wfTag t = true := h t (List.mem_cons_self _ _)
    have hwts : ∀ x ∈ ts2, wfTag x = true := fun x hx => h x (List.mem_cons_of_mem _ hx)
    have hlen8 := encodeTag_ge8 t hwt
    have hlcons : (encTagList (t :: ts2)).length
        = (encodeTag t).length + (encTagList ts2).length := by
      simp [encTagList_cons]
    obtain ⟨f, rfl⟩ : ∃ f, fuel = f + 1 := ⟨fuel - 1, by omega⟩
    rw [parseTagsF_succ, encTagList_cons]
    rw [parse_encodeTag (encodeTag t).length t le_rfl hwt pre (encTagList ts2) f
      (by omega)]
    dsimp only
    rw [show pre ++ (encodeTag t ++ encTagList ts2)
        = (pre ++ encodeTag t) ++ encTagList ts2 from by rw [List.append_assoc]]
    rw [show pre.length + (encodeTag t).length = (pre ++ encodeTag t).length from by simp]
    rw [ih hwts (pre ++ encodeTag t) f (by omega)]

/-! ## C6 — crate decode/re-encode round trip -/

/-- C6: for every valid crate byte buffer (the byte image of a
well-formed tag sequence under the spec's tag grammar), the `parseCrate`
tag loop decodes exactly that sequence in file order, and re-encoding
each decoded tag with the same grammar (4-byte type, 4-byte big-endian
length, payload) reproduces the original bytes exactly; `UnknownTag`s
re-encode their stored type and verbatim payload, so they are preserved
byte-for-byte. -/
theorem crate_roundtrip (b : List Nat) (h : ValidCrateBuffer b) :
    ∃ ts : List Tag, parseTags b = .ok ts ∧ parseCrate b = .ok (crateOf ts)
      ∧ encTagList ts = b := by
  obtain ⟨ts, hwf, rfl⟩ := h
  have hp : parseTags (encTagList ts) = .ok ts := by
    unfold parseTags
    have h2 := parse_encTagList ts hwf [] ((encTagList ts).length + 1) le_rfl
    simpa using h2
  exact ⟨ts, hp, by unfold parseCrate; rw [hp]; rfl, rfl⟩

/-- Witness for C6: a concrete valid crate buffer — an `otrk` tag with a
nested `ptrk` track name followed by an unknown `"abcd"` tag — decodes
and re-encodes to itself. -/
theorem crate_roundtrip_witness :
    ∃ ts, parseTags ([0x6f, 0x74, 0x72, 0x6b, 0, 0, 0, 10, 0x70, 0x74, 0x72, 0x6b,
        0, 0, 0, 2, 0, 65] ++ [97, 98, 99, 100, 0, 0, 0, 1, 9]) = .ok ts
      ∧ parseCrate ([0x6f, 0x74, 0x72, 0x6b, 0, 0, 0, 10, 0x70, 0x74, 0x72, 0x6b,
          0, 0, 0, 2, 0, 65] ++ [97, 98, 99, 100, 0, 0, 0, 1, 9]) = .ok (crateOf ts)
      ∧ encTagList ts = ([0x6f, 0x74, 0x72, 0x6b, 0, 0, 0, 10, 0x70, 0x74, 0x72, 0x6b,
          0, 0, 0, 2, 0, 65] ++ [97, 98, 99, 100, 0, 0, 0, 1, 9]) :=
  crate_roundtrip _
    ⟨[.track (some (.trackName [65])), .unknown [97, 98, 99, 100] (some [9])],
      by
        intro t ht
        simp only [List.mem_cons, List.not_mem_nil, or_false] at ht
        rcases ht with rfl | rfl
        · simp [wfTag, wfOpt, textOK, encOpt, encodeTag, encText, PTRK]
        · simp [wfTag, knownKeys, VRSN, TVCN, PTRK, OVCT, OSRT, OTRK, ORVC],
      by
        simp [encTagList, encodeTag, encOpt, encText, be32enc, OTRK, PTRK]⟩

end DJM
